import Mathlib

/-!
# Verification of the fluent-builder / tweet-schema repository

Shallow embedding of:
* `src/fluent_builder/fluent_setter.py` — the `fluent_setter` decorator;
* `src/fluent_builder/generic_fluent_builder.py` — `FluentBaseModel.generate_fluent_setters`;
* `src/tweet_v1.py` — the `User.description_replace` and `Tweet.text_replace` validators.

Python objects are modelled as attribute dictionaries (association lists from
attribute name to value) living on a heap indexed by references, so that
reference identity (`is`) is expressible.  Python class objects are modelled by
their own `__annotations__` key list, their own method dictionary, and the
method dictionary inherited from their bases; `hasattr` looks through both,
`setattr` on a class writes to the own dictionary.  Strings are modelled as
`List Char` (Python `len` is the character count, and `str.replace` of a
one-character pattern by a one-character replacement is a character map).
-/

set_option autoImplicit false

namespace FluentRepo

/-- A Python attribute value: only strings and integers occur in the claims. -/
inductive PyVal where
  | vStr : List Char → PyVal
  | vInt : Int → PyVal
  deriving DecidableEq, Repr

/-- Lookup in a Python dictionary (association list keyed by strings). -/
def lookupA {α : Type} : List (String × α) → String → Option α
  | [], _ => none
  | (k, m) :: rest, n => if k = n then some m else lookupA rest n

/-- `d[k] = v` on a Python dictionary: overwrite the existing binding of `k`,
or append a fresh one. -/
def setA {α : Type} : List (String × α) → String → α → List (String × α)
  | [], k, v => [(k, v)]
  | (k', w) :: rest, k, v =>
    if k' = k then (k, v) :: rest else (k', w) :: setA rest k v

/-- How many bindings of key `n` a dictionary holds (exactly one after `setA`;
used to state that generation attaches exactly one method of a given name). -/
def countKey {α : Type} (l : List (String × α)) (n : String) : Nat :=
  l.countP (fun p => p.1 = n)

/-- A reference to a Python object. -/
abbrev Ref := Nat

/-- A Python instance: its attribute dictionary. -/
abbrev Obj := List (String × PyVal)

/-- The heap: every reference resolves to an object. -/
abbrev Heap := Ref → Obj

/-- `setattr(r, attr, v)` as a heap transformer: mutate the object at `r`
in place, leaving every other object untouched. -/
def heapSet (h : Heap) (r : Ref) (attr : String) (v : PyVal) : Heap :=
  fun r' => if r' = r then setA (h r) attr v else h r'

/-- The denotation of a Python bound method of shape `(self, value)`:
it may read and mutate the heap and returns a reference. -/
abbrev MethodSem := Ref → PyVal → Heap → Ref × Heap

set_option linter.unusedVariables false in
/-- `fluent_setter` from `src/fluent_builder/fluent_setter.py` (and its
identical copy in `generic_fluent_builder.py`): `fluent_setter(attr_name)`
applied to `method` yields the `wrapper`, which performs
`setattr(self, attr_name, value)` and then `return self`.  The wrapped
`method` is never invoked by the wrapper, so the result does not depend on it. -/
def fluent_setter (attr_name : String) (method : MethodSem) : MethodSem :=
  fun self value h => (self, heapSet h self attr_name value)

/-- The lambda built inside `generate_fluent_setters`:
`lambda self, value, field=field: setattr(self, field, value) or self`
(`setattr` returns `None`, and `None or self` is `self`). -/
def gen_lambda (field : String) : MethodSem :=
  fun self value h => (self, heapSet h self field value)

/-- A method stored in a class dictionary: either a user-written method
(identified by a tag, interpreted by an ambient `userSem`), or the wrapper
produced by `fluent_setter field` on the generated lambda. -/
inductive PyMethod where
  | user : Nat → PyMethod
  | fluentWrapper : String → PyMethod
  deriving DecidableEq, Repr

/-- Run a stored method.  `userSem` interprets the user-written method tags. -/
def runMethod (userSem : Nat → MethodSem) : PyMethod → MethodSem
  | .user t => userSem t
  | .fluentWrapper attr => fluent_setter attr (gen_lambda attr)

/-- A Python class object, as `generate_fluent_setters` sees it:
`anns` is the key list of the class's own `__annotations__` (in declaration
order; on Python ≥ 3.10 a class's `__annotations__` holds only its own
annotations, never an ancestor's), `ownMethods` its own attribute dictionary,
`baseMethods` the attributes reachable from its bases via the MRO. -/
structure PyClass where
  anns : List String
  ownMethods : List (String × PyMethod)
  baseMethods : List (String × PyMethod)
  deriving DecidableEq, Repr

/-- Python class attribute lookup: own dictionary first, then the bases. -/
def lookupMethod (c : PyClass) (name : String) : Option PyMethod :=
  match lookupA c.ownMethods name with
  | some m => some m
  | none => lookupA c.baseMethods name

/-- `hasattr(cls, name)`. -/
def hasattrC (c : PyClass) (name : String) : Bool :=
  (lookupMethod c name).isSome

/-- `setattr(cls, name, m)`: writes into the class's own dictionary. -/
def setattrCls (c : PyClass) (name : String) (m : PyMethod) : PyClass :=
  { c with ownMethods := setA c.ownMethods name m }

/-- `"_".join(["with", field])`: the conventional setter name. -/
def method_name (field : String) : String :=
  "with_" ++ field

/-- One iteration of the loop in `generate_fluent_setters`. -/
def genStep (acc : PyClass) (field : String) : PyClass :=
  let mname := method_name field
  if hasattrC acc mname then acc
  else setattrCls acc mname (.fluentWrapper field)

/-- `FluentBaseModel.generate_fluent_setters` from
`src/fluent_builder/generic_fluent_builder.py`: for each key of the class's
own `__annotations__`, if `hasattr(cls, "with_" + field)` fails, attach
`fluent_setter(field)(lambda self, value, field=field: ...)` to the class
under that name. -/
def generate_fluent_setters (c : PyClass) : PyClass :=
  c.anns.foldl genStep c

/-- Invoke `m.<name>(value)` for an instance `m` at reference `self`:
resolve the method on the class, then run it (`none` if no such method). -/
def callMethod (userSem : Nat → MethodSem) (c : PyClass) (name : String)
    (self : Ref) (value : PyVal) (h : Heap) : Option (Ref × Heap) :=
  (lookupMethod c name).map (fun m => runMethod userSem m self value h)

/-- Python `v.replace('\n', ' ')` for a one-character pattern and
replacement: a character map. -/
def pyReplaceNl (s : List Char) : List Char :=
  s.map (fun c => if c = '\n' then ' ' else c)

/-- `Tweet.text_replace` from `src/tweet_v1.py`: raise a validation error if
`len(v) > 140`, otherwise return `v.replace('\n', ' ')`. -/
def text_replace (v : List Char) : Except String (List Char) :=
  if v.length > 140 then .error "text should be less than 140 characters"
  else .ok (pyReplaceNl v)

/-- `User.description_replace` from `src/tweet_v1.py`: raise a validation
error if `len(v) > 80`, otherwise return `v.replace('\n', ' ')`. -/
def description_replace (v : List Char) : Except String (List Char) :=
  if v.length > 80 then .error "description should be less than 80 characters"
  else .ok (pyReplaceNl v)

/-- Modelled from the spec: the external model capability's validating
assignment (`pydantic` with `validate_assignment`; the repository's `src/`
treats it as an out-of-scope collaborator: "validate field, raise on
violation").  The per-field validator runs on the assigned value; on failure
the assignment raises and the instance is left exactly as it was; on success
the validated value is stored.  The pair returns the outcome and the
instance's attribute dictionary afterwards. -/
def validatedSetattr (validator : PyVal → Except String PyVal)
    (obj : Obj) (attr : String) (value : PyVal) : Except String Unit × Obj :=
  match validator value with
  | .error e => (.error e, obj)
  | .ok v' => (.ok (), setA obj attr v')

/-- The assignment validator of the `text` field of `Tweet`: on string
values it is `Tweet.text_replace`. -/
def textFieldValidator : PyVal → Except String PyVal
  | .vStr s => (text_replace s).map .vStr
  | v => .ok v

/-- The fluent setter of `Tweet.text` under validating assignment: set the
`text` attribute through `textFieldValidator`. -/
def with_text (obj : Obj) (value : PyVal) : Except String Unit × Obj :=
  validatedSetattr textFieldValidator obj "text" value

/-! ## Dictionary lemmas -/

theorem lookupA_setA_self {α : Type} (l : List (String × α)) (k : String) (v : α) :
    lookupA (setA l k v) k = some v := by
  induction l with
  | nil => simp [setA, lookupA]
  | cons p rest ih =>
    by_cases hk : p.1 = k
    · simp [setA, hk, lookupA]
    · simp [setA, hk, lookupA, ih]

theorem lookupA_setA_ne {α : Type} (l : List (String × α)) (k n : String) (v : α)
    (hkn : k ≠ n) : lookupA (setA l k v) n = lookupA l n := by
  induction l with
  | nil => simp [setA, lookupA, hkn]
  | cons p rest ih =>
    by_cases hk : p.1 = k
    · simp [setA, hk, lookupA, hkn]
    · simp [setA, hk, lookupA, ih]

theorem countKey_setA_ne {α : Type} (l : List (String × α)) (k n : String) (v : α)
    (hkn : k ≠ n) : countKey (setA l k v) n = countKey l n := by
  induction l with
  | nil => simp [setA, countKey, List.countP_cons, hkn]
  | cons p rest ih =>
    by_cases hk : p.1 = k
    · simp only [setA, hk, if_pos]
      simp [countKey, List.countP_cons, hkn, hk]
    · simp only [setA, hk, if_neg, ite_false]
      simp only [countKey, List.countP_cons] at *
      rw [ih]

theorem countKey_of_lookupA_none {α : Type} (l : List (String × α)) (k : String)
    (hl : lookupA l k = none) : countKey l k = 0 := by
  induction l with
  | nil => simp [countKey]
  | cons p rest ih =>
    by_cases hk : p.1 = k
    · simp [lookupA, hk] at hl
    · simp only [lookupA, hk, if_neg, ite_false] at hl
      have h0 := ih hl
      simp only [countKey, List.countP_cons] at h0 ⊢
      rw [decide_eq_false hk]
      simp [h0]

theorem countKey_setA_absent {α : Type} (l : List (String × α)) (k : String) (v : α)
    (hl : lookupA l k = none) : countKey (setA l k v) k = 1 := by
  induction l with
  | nil => simp [setA, countKey, List.countP_cons]
  | cons p rest ih =>
    by_cases hk : p.1 = k
    · simp [lookupA, hk] at hl
    · simp only [lookupA, hk, if_neg, ite_false] at hl
      simp only [setA, hk, if_neg, ite_false]
      simp only [countKey, List.countP_cons] at *
      simp [hk, ih hl]

theorem method_name_inj {f g : String} (h : method_name f = method_name g) : f = g := by
  have h2 : ("with_" ++ f).data = ("with_" ++ g).data := congrArg String.data h
  simp only [String.data_append] at h2
  have h3 : f.data = g.data := List.append_cancel_left h2
  cases f; cases g; exact congrArg String.mk h3

/-! ## Class-mutation lemmas -/

theorem lookupMethod_setattrCls_self (c : PyClass) (n : String) (m : PyMethod) :
    lookupMethod (setattrCls c n m) n = some m := by
  simp [lookupMethod, setattrCls, lookupA_setA_self]

theorem lookupMethod_setattrCls_ne (c : PyClass) (k n : String) (m : PyMethod)
    (hkn : k ≠ n) : lookupMethod (setattrCls c k m) n = lookupMethod c n := by
  simp [lookupMethod, setattrCls, lookupA_setA_ne _ _ _ _ hkn]

theorem hasattrC_setattrCls_self (c : PyClass) (n : String) (m : PyMethod) :
    hasattrC (setattrCls c n m) n = true := by
  simp [hasattrC, lookupMethod_setattrCls_self]

theorem hasattrC_false_own (c : PyClass) (n : String) (h : hasattrC c n = false) :
    lookupA c.ownMethods n = none := by
  simp only [hasattrC, lookupMethod, Option.isSome] at h
  cases ho : lookupA c.ownMethods n with
  | none => rfl
  | some m => rw [ho] at h; simp at h

/-! ## Lemmas about the generation fold -/

theorem genStep_anns (acc : PyClass) (f : String) : (genStep acc f).anns = acc.anns := by
  unfold genStep
  by_cases hf : hasattrC acc (method_name f) = true <;> simp [hf, setattrCls]

theorem foldl_genStep_anns (l : List String) (acc : PyClass) :
    (l.foldl genStep acc).anns = acc.anns := by
  induction l generalizing acc with
  | nil => rfl
  | cons g t ih => rw [List.foldl_cons, ih, genStep_anns]

theorem hasattrC_genStep_mono (acc : PyClass) (f : String) (n : String)
    (h : hasattrC acc n = true) : hasattrC (genStep acc f) n = true := by
  unfold genStep
  by_cases hf : hasattrC acc (method_name f) = true
  · simp [hf, h]
  · have hne : method_name f ≠ n := by
      intro he; rw [he] at hf; exact hf h
    simp only [hf, ite_false, if_neg, Bool.not_eq_true] at *
    simp [hasattrC, lookupMethod_setattrCls_ne acc _ _ _ hne]
    simp only [hasattrC] at h
    exact h

theorem lookupMethod_genStep_of_hasattr (acc : PyClass) (f : String) (n : String)
    (h : hasattrC acc n = true) : lookupMethod (genStep acc f) n = lookupMethod acc n := by
  unfold genStep
  by_cases hf : hasattrC acc (method_name f) = true
  · simp [hf]
  · have hne : method_name f ≠ n := by
      intro he; rw [he] at hf; exact hf h
    simp only [hf, ite_false, if_neg, Bool.not_eq_true]
    exact lookupMethod_setattrCls_ne acc _ _ _ hne

theorem countKey_genStep_of_hasattr (acc : PyClass) (f : String) (n : String)
    (h : hasattrC acc n = true) :
    countKey (genStep acc f).ownMethods n = countKey acc.ownMethods n := by
  unfold genStep
  by_cases hf : hasattrC acc (method_name f) = true
  · simp [hf]
  · have hne : method_name f ≠ n := by
      intro he; rw [he] at hf; exact hf h
    simp only [hf, ite_false, if_neg, Bool.not_eq_true]
    simp [setattrCls, countKey_setA_ne _ _ _ _ hne]

theorem hasattrC_foldl_mono (l : List String) (acc : PyClass) (n : String)
    (h : hasattrC acc n = true) : hasattrC (l.foldl genStep acc) n = true := by
  induction l generalizing acc with
  | nil => exact h
  | cons g t ih => exact ih (genStep acc g) (hasattrC_genStep_mono acc g n h)

theorem lookupMethod_foldl_of_hasattr (l : List String) (acc : PyClass) (n : String)
    (h : hasattrC acc n = true) :
    lookupMethod (l.foldl genStep acc) n = lookupMethod acc n := by
  induction l generalizing acc with
  | nil => rfl
  | cons g t ih =>
    rw [List.foldl_cons, ih (genStep acc g) (hasattrC_genStep_mono acc g n h),
      lookupMethod_genStep_of_hasattr acc g n h]

theorem countKey_foldl_of_hasattr (l : List String) (acc : PyClass) (n : String)
    (h : hasattrC acc n = true) :
    countKey (l.foldl genStep acc).ownMethods n = countKey acc.ownMethods n := by
  induction l generalizing acc with
  | nil => rfl
  | cons g t ih =>
    rw [List.foldl_cons, ih (genStep acc g) (hasattrC_genStep_mono acc g n h),
      countKey_genStep_of_hasattr acc g n h]

theorem hasattrC_foldl_mem (f : String) (l : List String) (acc : PyClass)
    (hf : f ∈ l) : hasattrC (l.foldl genStep acc) (method_name f) = true := by
  induction l generalizing acc with
  | nil => cases hf
  | cons g t ih =>
    rw [List.foldl_cons]
    by_cases hgf : g = f
    · subst hgf
      apply hasattrC_foldl_mono
      unfold genStep
      by_cases hg : hasattrC acc (method_name g) = true
      · simp [hg]
      · simp only [hg, ite_false, if_neg, Bool.not_eq_true]
        exact hasattrC_setattrCls_self acc _ _
    · have hft : f ∈ t := by
        rcases List.mem_cons.mp hf with h | h
        · exact absurd h.symm hgf
        · exact h
      exact ih (genStep acc g) hft

theorem foldl_genStep_fixed (l : List String) (acc : PyClass)
    (h : ∀ f ∈ l, hasattrC acc (method_name f) = true) : l.foldl genStep acc = acc := by
  induction l with
  | nil => rfl
  | cons g t ih =>
    have hg : genStep acc g = acc := by
      unfold genStep
      simp [h g (List.mem_cons_self g t)]
    rw [List.foldl_cons, hg]
    exact ih (fun f hf => h f (List.mem_cons_of_mem g hf))

theorem foldl_own_untouched (l : List String) (acc : PyClass) (n : String)
    (h : ∀ g ∈ l, method_name g ≠ n) :
    lookupA (l.foldl genStep acc).ownMethods n = lookupA acc.ownMethods n := by
  induction l generalizing acc with
  | nil => rfl
  | cons g t ih =>
    rw [List.foldl_cons, ih (genStep acc g) (fun g' hg' => h g' (List.mem_cons_of_mem g hg'))]
    unfold genStep
    by_cases hg : hasattrC acc (method_name g) = true
    · simp [hg]
    · simp only [hg, ite_false, if_neg, Bool.not_eq_true]
      simp [setattrCls, lookupA_setA_ne _ _ _ _ (h g (List.mem_cons_self g t))]

theorem foldl_attaches (l : List String) (acc : PyClass) (f : String)
    (hf : f ∈ l) (hna : hasattrC acc (method_name f) = false) :
    lookupMethod (l.foldl genStep acc) (method_name f) = some (.fluentWrapper f)
    ∧ countKey (l.foldl genStep acc).ownMethods (method_name f) = 1 := by
  induction l generalizing acc with
  | nil => cases hf
  | cons g t ih =>
    rw [List.foldl_cons]
    by_cases hgf : g = f
    · subst hgf
      have hstep : genStep acc g = setattrCls acc (method_name g) (.fluentWrapper g) := by
        unfold genStep
        simp [hna]
      rw [hstep]
      have h1 : hasattrC (setattrCls acc (method_name g) (.fluentWrapper g))
          (method_name g) = true := hasattrC_setattrCls_self acc _ _
      constructor
      · rw [lookupMethod_foldl_of_hasattr t _ _ h1, lookupMethod_setattrCls_self]
      · rw [countKey_foldl_of_hasattr t _ _ h1]
        simp only [setattrCls]
        exact countKey_setA_absent _ _ _ (hasattrC_false_own acc _ hna)
    · have hft : f ∈ t := by
        rcases List.mem_cons.mp hf with h | h
        · exact absurd h.symm hgf
        · exact h
      apply ih (genStep acc g) hft
      unfold genStep
      by_cases hg : hasattrC acc (method_name g) = true
      · simp [hg, hna]
      · have hne : method_name g ≠ method_name f := fun he => hgf (method_name_inj he)
        simp only [hg, ite_false, if_neg, Bool.not_eq_true]
        simp [hasattrC, lookupMethod_setattrCls_ne acc _ _ _ hne]
        simpa [hasattrC] using hna

/-- Replacing newlines by spaces changes any list that holds a newline. -/
theorem pyReplaceNl_changes (v : List Char) (hv : '\n' ∈ v) : pyReplaceNl v ≠ v := by
  induction v with
  | nil => cases hv
  | cons c t ih =>
    intro heq
    simp only [pyReplaceNl, List.map_cons] at heq
    have hc := (List.cons.injEq _ _ _ _).mp heq
    by_cases h : c = '\n'
    · subst h
      have h1 : (if ('\n' : Char) = '\n' then ' ' else '\n') = '\n' := hc.1
      rw [if_pos rfl] at h1
      exact absurd h1 (by decide)
    · have h2 : pyReplaceNl t = t := hc.2
      rcases List.mem_cons.mp hv with h1 | h1
      · exact h h1.symm
      · exact ih h1 h2

/-! ## Claim theorems -/

/-- C1: for every instance, every fluent setter (hand-decorated or generated)
and every value, the call returns the very same reference `self` — reference
identity, not a copy — and it does so unconditionally: the result is
independent of the wrapped method, whose computation is discarded. -/
theorem fluent_setter_returns_self (attr_name : String) (method : MethodSem)
    (self : Ref) (value : PyVal) (h : Heap) :
    (fluent_setter attr_name method self value h).1 = self
    ∧ (∀ method' : MethodSem,
        fluent_setter attr_name method self value h
          = fluent_setter attr_name method' self value h)
    ∧ (∀ (userSem : Nat → MethodSem) (f : String),
        (runMethod userSem (.fluentWrapper f) self value h).1 = self) :=
  ⟨rfl, fun _ => rfl, fun _ _ => rfl⟩

/-- C2: after `m.with_f(v)` (plain `setattr`, which always succeeds in the
code as written), reading field `f` on the same instance yields exactly `v`. -/
theorem fluent_setter_stores_value (attr_name : String) (method : MethodSem)
    (self : Ref) (value : PyVal) (h : Heap) :
    lookupA ((fluent_setter attr_name method self value h).2 self) attr_name = some value := by
  show lookupA (heapSet h self attr_name value self) attr_name = some value
  simp [heapSet, lookupA_setA_self]

/-- C3: `generate_fluent_setters` is idempotent — running it a second time
returns the class object (annotations, own and inherited method tables)
unchanged, so no method is regenerated or duplicated. -/
theorem generate_fluent_setters_idempotent (c : PyClass) :
    generate_fluent_setters (generate_fluent_setters c) = generate_fluent_setters c := by
  show (generate_fluent_setters c).anns.foldl genStep (generate_fluent_setters c)
      = generate_fluent_setters c
  rw [show (generate_fluent_setters c).anns = c.anns from foldl_genStep_anns c.anns c]
  exact foldl_genStep_fixed c.anns (generate_fluent_setters c)
    (fun f hf => hasattrC_foldl_mem f c.anns c hf)

/-- C4: if a method named `with_f` resolves on the class before generation
runs, generation leaves that resolution unchanged, and invoking `with_f`
afterwards still runs the pre-existing (user-defined) method. -/
theorem generation_keeps_user_method (c : PyClass) (f : String) (m : PyMethod)
    (hm : lookupMethod c (method_name f) = some m) :
    lookupMethod (generate_fluent_setters c) (method_name f) = some m
    ∧ ∀ (userSem : Nat → MethodSem) (self : Ref) (value : PyVal) (h : Heap),
        callMethod userSem (generate_fluent_setters c) (method_name f) self value h
          = some (runMethod userSem m self value h) := by
  have hh : hasattrC c (method_name f) = true := by
    simp [hasattrC, hm]
  have hl : lookupMethod (generate_fluent_setters c) (method_name f)
      = lookupMethod c (method_name f) :=
    lookupMethod_foldl_of_hasattr c.anns c (method_name f) hh
  refine ⟨hl.trans hm, fun userSem self value h => ?_⟩
  simp [callMethod, hl, hm]

/-- C5: for every declared field `f` with no pre-existing method of the
conventional name, generation attaches to the class exactly one method named
`"with_" ++ f` (one binding in the class's own method dictionary, shared by
all instances), and that method sets field `f` to the supplied value and
returns `self`. -/
theorem generation_attaches_conventional_setter (c : PyClass) (f : String)
    (hf : f ∈ c.anns) (hna : hasattrC c (method_name f) = false) :
    lookupMethod (generate_fluent_setters c) (method_name f) = some (.fluentWrapper f)
    ∧ countKey (generate_fluent_setters c).ownMethods (method_name f) = 1
    ∧ ∀ (userSem : Nat → MethodSem) (self : Ref) (value : PyVal) (h : Heap),
        runMethod userSem (.fluentWrapper f) self value h = (self, heapSet h self f value) := by
  have h1 := foldl_attaches c.anns c f hf hna
  exact ⟨h1.1, h1.2, fun _ _ _ _ => rfl⟩

/-- C6: frame condition — `m.with_f(v)` leaves every attribute of `m` other
than `f` untouched and leaves every other object on the heap untouched: the
call performs exactly one attribute mutation, on the named field only. -/
theorem fluent_setter_frame (attr_name : String) (method : MethodSem) (self : Ref)
    (value : PyVal) (h : Heap) (g : String) (r : Ref)
    (hg : g ≠ attr_name) (hr : r ≠ self) :
    lookupA ((fluent_setter attr_name method self value h).2 self) g = lookupA (h self) g
    ∧ (fluent_setter attr_name method self value h).2 r = h r := by
  constructor
  · show lookupA (heapSet h self attr_name value self) g = lookupA (h self) g
    have hh : heapSet h self attr_name value self = setA (h self) attr_name value := by
      simp [heapSet]
    rw [hh]
    exact lookupA_setA_ne _ _ _ _ (Ne.symm hg)
  · show heapSet h self attr_name value r = h r
    simp [heapSet, hr]

/-- C7: calling the `text` setter under validating assignment with a
141-character string raises the validation error at that call and returns the
instance's attribute dictionary exactly as it was: the `text` field keeps its
prior value (or default) and every field set earlier in the chain stays set. -/
theorem with_text_atomic_validation_failure (obj : Obj) (s : List Char)
    (hs : s.length = 141) :
    with_text obj (.vStr s) = (.error "text should be less than 140 characters", obj) := by
  have h141 : s.length > 140 := by omega
  simp [with_text, validatedSetattr, textFieldValidator, text_replace, h141, Except.map]

/-- C8: on a class declaring no fields, `generate_fluent_setters` completes
(it is a total function) and returns the class object unchanged — no method
is attached. -/
theorem generate_zero_fields_noop (c : PyClass) (h : c.anns = []) :
    generate_fluent_setters c = c := by
  show c.anns.foldl genStep c = c
  rw [h]
  rfl

/-- C9: the validators normalize as well as validate — within the length
bound (140 for `Tweet.text`, 80 for `User.description`) they return the input
with every newline replaced by a space, and on any input containing a newline
the returned (stored) value differs from the supplied one. -/
theorem validators_normalize_newlines :
    (∀ v : List Char, v.length ≤ 140 → text_replace v = .ok (pyReplaceNl v))
    ∧ (∀ v : List Char, v.length ≤ 80 → description_replace v = .ok (pyReplaceNl v))
    ∧ (∀ v : List Char, '\n' ∈ v → pyReplaceNl v ≠ v) := by
  refine ⟨fun v hv => ?_, fun v hv => ?_, fun v hv => pyReplaceNl_changes v hv⟩
  · have hle : ¬ v.length > 140 := by omega
    simp [text_replace, hle]
  · have hle : ¬ v.length > 80 := by omega
    simp [description_replace, hle]

/-- C10: generation iterates only the class's own `__annotations__`; for a
field `f` not re-declared on the class (e.g. inherited from a parent model),
no `with_f` method is added to the class's own method dictionary. -/
theorem generation_ignores_inherited_fields (c : PyClass) (f : String) (hf : f ∉ c.anns) :
    lookupA (generate_fluent_setters c).ownMethods (method_name f)
      = lookupA c.ownMethods (method_name f) :=
  foldl_own_untouched c.anns c (method_name f)
    (fun g hg he => hf (method_name_inj he ▸ hg))

/-! ## Concrete witness data -/

/-- A trivial interpretation of the user-method tags. -/
def wSem : Nat → MethodSem := fun _ self _ h => (self, h)

/-- A heap of empty objects. -/
def wHeap : Heap := fun _ => []

/-- A class with one declared field `text` and a user-written `with_text`. -/
def wClsUser : PyClass :=
  { anns := ["text"], ownMethods := [("with_text", .user 0)], baseMethods := [] }

/-- A class declaring fields `text` and `id_str`, with no methods of its own. -/
def wClsPlain : PyClass :=
  { anns := ["text", "id_str"], ownMethods := [], baseMethods := [] }

/-- A class with no declared fields and one unrelated method. -/
def wClsEmpty : PyClass :=
  { anns := [], ownMethods := [("foo", .user 3)], baseMethods := [] }

/-- A subclass declaring only `id`, inheriting `text` and its generated
`with_text` from a parent. -/
def wClsChild : PyClass :=
  { anns := ["id"], ownMethods := [], baseMethods := [("with_text", .fluentWrapper "text")] }

/-! ## Witnesses -/

/-- Witness for C4 at a concrete class with a user-written `with_text`. -/
theorem generation_keeps_user_method_witness :
    lookupMethod (generate_fluent_setters wClsUser) (method_name "text") = some (.user 0)
    ∧ callMethod wSem (generate_fluent_setters wClsUser) (method_name "text") 0 (.vInt 1) wHeap
        = some (runMethod wSem (.user 0) 0 (.vInt 1) wHeap) := by
  have h := generation_keeps_user_method wClsUser "text" (.user 0) (by decide)
  exact ⟨h.1, h.2 wSem 0 (.vInt 1) wHeap⟩

/-- Witness for C5 at a concrete class declaring `text` with no methods. -/
theorem generation_attaches_conventional_setter_witness :
    lookupMethod (generate_fluent_setters wClsPlain) (method_name "text")
      = some (.fluentWrapper "text")
    ∧ countKey (generate_fluent_setters wClsPlain).ownMethods (method_name "text") = 1
    ∧ runMethod wSem (.fluentWrapper "text") 0 (.vInt 7) wHeap
        = (0, heapSet wHeap 0 "text" (.vInt 7)) := by
  have h := generation_attaches_conventional_setter wClsPlain "text" (by decide) (by decide)
  exact ⟨h.1, h.2.1, h.2.2 wSem 0 (.vInt 7) wHeap⟩

/-- Witness for C6 at concrete fields `text` and `id_str` and references 0, 1. -/
theorem fluent_setter_frame_witness :
    lookupA ((fluent_setter "text" (gen_lambda "text") 0 (.vStr ['a']) wHeap).2 0) "id_str"
      = lookupA (wHeap 0) "id_str"
    ∧ (fluent_setter "text" (gen_lambda "text") 0 (.vStr ['a']) wHeap).2 1 = wHeap 1 :=
  fluent_setter_frame "text" (gen_lambda "text") 0 (.vStr ['a']) wHeap "id_str" 1
    (by decide) (by decide)

/-- Witness for C7 at a 141-character string, on an instance with an
earlier-set `id_str` field. -/
theorem with_text_atomic_validation_failure_witness :
    with_text [("id_str", PyVal.vStr ['1'])] (.vStr (List.replicate 141 'a'))
      = (.error "text should be less than 140 characters", [("id_str", PyVal.vStr ['1'])]) :=
  with_text_atomic_validation_failure _ _ (by simp)

/-- Witness for C8 at a concrete zero-field class. -/
theorem generate_zero_fields_noop_witness : generate_fluent_setters wClsEmpty = wClsEmpty :=
  generate_zero_fields_noop wClsEmpty rfl

/-- Witness for C9 at concrete strings containing newlines. -/
theorem validators_normalize_newlines_witness :
    text_replace ['a', '\n', 'b'] = .ok ['a', ' ', 'b']
    ∧ description_replace ['\n'] = .ok [' ']
    ∧ pyReplaceNl ['\n'] ≠ ['\n'] :=
  ⟨validators_normalize_newlines.1 _ (by decide),
   validators_normalize_newlines.2.1 _ (by decide),
   validators_normalize_newlines.2.2 _ (by decide)⟩

/-- Witness for C10 at a concrete subclass inheriting `text`. -/
theorem generation_ignores_inherited_fields_witness :
    lookupA (generate_fluent_setters wClsChild).ownMethods (method_name "text")
      = lookupA wClsChild.ownMethods (method_name "text") :=
  generation_ignores_inherited_fields wClsChild "text" (by decide)

end FluentRepo
